import Mathlib

/-
Verification development for the RNS homomorphic-encryption arithmetic layer:
the BFV leveled-SHE operations (bfvrns-leveledshe.cpp) and the CKKS
bootstrapping pipeline (ckksrns-fhe.cpp).

Ring elements (the DCRTPoly type) are modelled by an abstract commutative
ring R; the external RNS-polynomial primitives (basis extension, basis
switching, scale-and-round, format switches) are modelled as abstract
endomorphisms of R collected in an operations record, because those
primitives live outside this repository and the properties verified here do
not depend on their internals.  All control flow, loop structure, index
arithmetic and metadata bookkeeping is translated directly from the C++
sources.
-/

namespace OpenFHE

/-- MultiplicationTechnique enum of the BFV RNS scheme (four variants). -/
inductive MultTechnique where
  | BEHZ
  | HPS
  | HPSPOVERQ
  | HPSPOVERQLEVELED
deriving DecidableEq, Repr

/-- Ciphertext model for the BFV scheme: the vector of ring elements, the
noise scale degree, the current number of RNS limbs (sizeQ, the value of
cv[0].GetNumOfElements()) and an identifier standing for the shared-pointer
identity of the crypto-parameters object. -/
structure BFVCiphertext (R : Type) where
  paramsId : Nat
  elems : List R
  noiseScaleDeg : Nat
  sizeQ : Nat
deriving DecidableEq, Repr

/-- Static data read from CryptoParametersBFVRNS that steers the branching
in EvalMult and EvalSquare: the multiplication technique and the maximum
number of RNS limbs of the context (sizeQM, from GetElementParams). -/
structure BFVParams where
  multTech : MultTechnique
  sizeQM : Nat
deriving DecidableEq, Repr

/-- Opaque models of the RNS polynomial primitives invoked by the BFV
multiplication and squaring pipelines.  Each field stands for one fixed
combination of a DCRTPoly method with the precomputed constants fetched
from the crypto parameters at the corresponding call site; an argument of
type Nat is the leveled index l passed to the corresponding getters. -/
structure BFVOps (R : Type) where
  /-- ExpandCRTBasis with the top-level precomputations (HPS branch). -/
  expandHPS : R → R
  /-- ExpandCRTBasis with the leveled precomputations at index l. -/
  expandAt : Nat → R → R
  /-- FastExpandCRTBasisPloverQ with the basisPQ built from the
  mNegRlQlHatInvModq family at index l (HPSPOVERQ-style branch). -/
  fastExpandPOverQAt : Nat → R → R
  /-- FastExpandCRTBasisPloverQ with the basisPQ built from the
  mNegRlQHatInvModq family at index l (HPSPOVERQLEVELED top-level branch). -/
  fastExpandLeveledAt : Nat → R → R
  /-- ScaleAndRound with QlQHatInvModqDivqModq at index l (drop to basis Ql). -/
  scaleRoundDropAt : Nat → R → R
  /-- FastBaseConvqToBskMontgomery (BEHZ branch). -/
  expandBsk : R → R
  /-- ScaleAndRound to basis Rl followed by SwitchCRTBasis back to Q (HPS). -/
  postHPS : R → R
  /-- ScaleAndRound with tQlSlHatInvModsDivsModq at index l. -/
  postPOverQAt : Nat → R → R
  /-- ExpandCRTBasisQlHat at index l (expand back to the full basis Q). -/
  expandQlHatAt : Nat → R → R
  /-- FastRNSFloorq followed by FastBaseConvSK (BEHZ branch). -/
  postBsk : R → R
  /-- SetFormat(COEFFICIENT). -/
  setCoeff : R → R
  /-- SetFormat(EVALUATION). -/
  setEval : R → R
  /-- FindLevelsToDrop(levels, cryptoParams, dcrtBits, keySwitch) as a
  function of the keySwitch flag and the accumulated levels; the crypto
  parameters and dcrtBits are fixed by the enclosing context. -/
  levelsToDrop : Bool → Nat → Nat

section BFVCore

variable {R : Type} [CommRing R]

/-- Value of an accumulator slot: a slot never written (isFirstAdd still
true and never assigned) reads as the default-constructed element, i.e. 0. -/
def slotVal (o : Option R) : R := o.getD 0

/-- One step of the accumulation loop on the output vector cvMult: if the
slot k is untouched (isFirstAdd[k]) the product is assigned, otherwise it
is added, exactly as in the double loop of EvalMult and EvalSquare. -/
def updSlot (f : Nat → Option R) (k : Nat) (v : R) : Nat → Option R :=
  fun x => if x = k then
    (match f k with
      | some w => some (w + v)
      | none => some v)
    else f x

/-- Sequentially apply a list of (slot, value) accumulation steps. -/
def applyUpdates (ps : List (Nat × R)) (f : Nat → Option R) : Nat → Option R :=
  ps.foldl (fun a p => updSlot a p.1 p.2) f

/-- Total contribution of an update list to slot k. -/
def slotSum (ps : List (Nat × R)) (k : Nat) : R :=
  (ps.map (fun p => if p.1 = k then p.2 else 0)).sum

/-- Update sequence generated by the schoolbook double loop of EvalMult:
for i over cv1 and j over cv2, accumulate cv1[i]*cv2[j] into slot i+j. -/
def multPairs (cv1 cv2 : List R) : List (Nat × R) :=
  (List.range cv1.length).flatMap (fun i =>
    (List.range cv2.length).map (fun j => (i + j, cv1.getD i 0 * cv2.getD j 0)))

/-- Update sequence generated by the symmetric double loop of EvalSquare in
the HPS and BEHZ techniques: j runs from i; the diagonal term is
accumulated once, an off-diagonal product cvtemp is accumulated twice. -/
def squarePairsSym (cv : List R) : List (Nat × R) :=
  (List.range cv.length).flatMap (fun i =>
    (List.range' i (cv.length - i)).flatMap (fun j =>
      if j = i then [(i + j, cv.getD i 0 * cv.getD j 0)]
      else [(i + j, cv.getD i 0 * cv.getD j 0), (i + j, cv.getD i 0 * cv.getD j 0)]))

/-- Output vector of the schoolbook double loop of EvalMult: a vector of
size cv1Size + cv2Size - 1 accumulated via multPairs. -/
def bfvMultCore (cv1 cv2 : List R) : List R :=
  (List.range (cv1.length + cv2.length - 1)).map
    (fun k => slotVal (applyUpdates (multPairs cv1 cv2) (fun _ => none) k))

/-- Output vector of the symmetric square loop (HPS and BEHZ techniques)
of EvalSquare: a vector of size 2*cvSize - 1. -/
def bfvSquareCoreSym (cv : List R) : List R :=
  (List.range (2 * cv.length - 1)).map
    (fun k => slotVal (applyUpdates (squarePairsSym cv) (fun _ => none) k))

/-- Output vector of the asymmetric square loop of EvalSquare (HPSPOVERQ
and HPSPOVERQLEVELED techniques): a full double loop over cv and cvPoverQ
writing into a vector of size 2*cvSize - 1. -/
def bfvSquareCoreAsym (cv cvPoverQ : List R) : List R :=
  (List.range (2 * cv.length - 1)).map
    (fun k => slotVal (applyUpdates (multPairs cv cvPoverQ) (fun _ => none) k))

/-- Karatsuba branch of EvalMult for cv1Size = cv2Size = 2 (USE_KARATSUBA):
cvMult[0] = cv1[0]*cv2[0], cvMult[2] = cv1[1]*cv2[1],
cvMult[1] = (cv1[0]+cv1[1])*(cv2[0]+cv2[1]) - cvMult[2] - cvMult[0]. -/
def bfvMultKaratsuba (cv1 cv2 : List R) : List R :=
  [cv1.getD 0 0 * cv2.getD 0 0,
   (cv1.getD 0 0 + cv1.getD 1 0) * (cv2.getD 0 0 + cv2.getD 1 0)
     - cv1.getD 1 0 * cv2.getD 1 0 - cv1.getD 0 0 * cv2.getD 0 0,
   cv1.getD 1 0 * cv2.getD 1 0]

/-- Karatsuba branch of EvalSquare for the HPS and BEHZ techniques
(USE_KARATSUBA, cvSize = 2), translated literally from the source:
cvSquare[0] = cv[0]*cv[0], cvSquare[2] = cv[1]*cv[1], and then
cvSquare[1] = cv1[0]*cv1[1]; cvSquare[1] += cvSquare[1].  The name cv1 is
not declared anywhere in the scope of EvalSquare (the only vectors in
scope are cv and cvPoverQ); it is therefore taken here as an explicit
extra input danglingCv1 so that the statement can be evaluated. -/
def bfvSquareKaratsubaSym (danglingCv1 cv : List R) : List R :=
  [cv.getD 0 0 * cv.getD 0 0,
   danglingCv1.getD 0 0 * danglingCv1.getD 1 0
     + danglingCv1.getD 0 0 * danglingCv1.getD 1 0,
   cv.getD 1 0 * cv.getD 1 0]

/-- Karatsuba branch of EvalSquare for the HPSPOVERQ and HPSPOVERQLEVELED
techniques (USE_KARATSUBA, cvSize = 2), operating on cv and cvPoverQ. -/
def bfvSquareKaratsubaAsym (cv cvPoverQ : List R) : List R :=
  [cv.getD 0 0 * cvPoverQ.getD 0 0,
   (cv.getD 0 0 + cv.getD 1 0) * (cvPoverQ.getD 0 0 + cvPoverQ.getD 1 0)
     - cv.getD 1 0 * cvPoverQ.getD 1 0 - cv.getD 0 0 * cvPoverQ.getD 0 0,
   cv.getD 1 0 * cvPoverQ.getD 1 0]

end BFVCore

section BFVPipeline

variable {R : Type} [CommRing R]

/-- Predicate for the branch condition shared by EvalMult and EvalSquare:
technique HPSPOVERQ, or HPSPOVERQLEVELED while the ciphertext sits below
the maximum number of limbs (sizeQ < sizeQM). -/
def isPOverQBranch (P : BFVParams) (sizeQ : Nat) : Bool :=
  P.multTech = MultTechnique.HPSPOVERQ ||
    (P.multTech = MultTechnique.HPSPOVERQLEVELED && sizeQ < P.sizeQM)

/-- Predicate for the HPSPOVERQLEVELED branch at the maximum limb count. -/
def isLeveledTopBranch (P : BFVParams) (sizeQ : Nat) : Bool :=
  P.multTech = MultTechnique.HPSPOVERQLEVELED && sizeQ = P.sizeQM

/-- Leveled index l computed in the HPSPOVERQLEVELED top-level branch:
levelsDropped = FindLevelsToDrop(levels, cryptoParams, dcrtBits, false),
then l = sizeQ - 1 - levelsDropped when levelsDropped > 0, else sizeQ - 1. -/
def leveledIndex (ops : BFVOps R) (levels sizeQ : Nat) : Nat :=
  let levelsDropped := ops.levelsToDrop false levels
  if 0 < levelsDropped then sizeQ - 1 - levelsDropped else sizeQ - 1

/-- Basis preparation applied to the first operand cv1 of EvalMult (and to
the vector cv of EvalSquare), per multiplication technique. -/
def bfvPrepFirst (P : BFVParams) (ops : BFVOps R) (sizeQ l : Nat) : R → R :=
  if P.multTech = MultTechnique.HPS then ops.expandHPS
  else if isPOverQBranch P sizeQ then ops.expandAt (sizeQ - 1)
  else if isLeveledTopBranch P sizeQ then
    fun c => ops.expandAt l
      (if l < sizeQ - 1 then ops.scaleRoundDropAt l (ops.setCoeff c) else ops.setCoeff c)
  else fun c => ops.setEval (ops.expandBsk c)

/-- Basis preparation applied to the second operand cv2 of EvalMult (and to
the copy cvPoverQ of EvalSquare), per multiplication technique.  In the
HPS and BEHZ techniques the second operand receives the same conversion as
the first one. -/
def bfvPrepSecond (P : BFVParams) (ops : BFVOps R) (sizeQ l : Nat) : R → R :=
  if P.multTech = MultTechnique.HPS then ops.expandHPS
  else if isPOverQBranch P sizeQ then
    fun c => ops.setEval (ops.fastExpandPOverQAt (sizeQ - 1) (ops.setCoeff c))
  else if isLeveledTopBranch P sizeQ then
    fun c => ops.setEval (ops.fastExpandLeveledAt l (ops.setCoeff c))
  else fun c => ops.setEval (ops.expandBsk c)

/-- Scaling and basis-conversion step applied to every accumulated output
element after the tensor product, per multiplication technique. -/
def bfvPost (P : BFVParams) (ops : BFVOps R) (sizeQ l : Nat) : R → R :=
  if P.multTech = MultTechnique.HPS then fun c => ops.postHPS (ops.setCoeff c)
  else if isPOverQBranch P sizeQ then
    fun c => ops.postPOverQAt (sizeQ - 1) (ops.setCoeff c)
  else if isLeveledTopBranch P sizeQ then
    fun c =>
      let c1 := ops.postPOverQAt l (ops.setCoeff c)
      if l < sizeQ - 1 then ops.expandQlHatAt l c1 else c1
  else fun c => ops.postBsk (ops.setCoeff c)

/-- Tensor-product core of EvalMult: the Karatsuba shortcut applies when
USE_KARATSUBA is defined and both ciphertexts have size exactly 2,
otherwise the schoolbook double loop runs. -/
def bfvMultElems (useKaratsuba : Bool) (cv1 cv2 : List R) : List R :=
  if useKaratsuba then
    if cv1.length = 2 && cv2.length = 2 then bfvMultKaratsuba cv1 cv2
    else bfvMultCore cv1 cv2
  else bfvMultCore cv1 cv2

/-- Tensor-product core of EvalSquare.  With USE_KARATSUBA and cvSize = 2,
the HPS and BEHZ techniques take the branch whose cross term reads the
undeclared name cv1 (modelled by the explicit input danglingCv1), and the
remaining techniques take the Karatsuba branch over cv and cvPoverQ.
Without USE_KARATSUBA the symmetric loop (HPS, BEHZ) or the full double
loop over cv and cvPoverQ runs. -/
def bfvSquareElems (useKaratsuba : Bool) (P : BFVParams) (danglingCv1 cv cvPoverQ : List R) :
    List R :=
  let sym : Bool := P.multTech = MultTechnique.HPS || P.multTech = MultTechnique.BEHZ
  if useKaratsuba && cv.length = 2 then
    if sym then bfvSquareKaratsubaSym danglingCv1 cv
    else bfvSquareKaratsubaAsym cv cvPoverQ
  else
    if sym then bfvSquareCoreSym cv
    else bfvSquareCoreAsym cv cvPoverQ

/-- Error raised by LeveledSHEBFVRNS operations. -/
inductive BFVError where
  | paramsMismatch
  | evalKeyNotFound (autoIndex : Nat)
deriving DecidableEq, Repr

/-- LeveledSHEBFVRNS EvalMult (binary, without relinearization): check that
both operands carry the same crypto-parameters object, prepare both element
vectors in the extended basis, run the tensor product, scale every output
element back, and return a ciphertext of size cv1Size + cv2Size - 1 whose
noise scale degree is max(deg1, deg2) + 1. -/
def evalMult (useKaratsuba : Bool) (P : BFVParams) (ops : BFVOps R)
    (ct1 ct2 : BFVCiphertext R) : Except BFVError (BFVCiphertext R) :=
  if ct1.paramsId ≠ ct2.paramsId then Except.error BFVError.paramsMismatch
  else
    let sizeQ := ct1.sizeQ
    let l := if isLeveledTopBranch P sizeQ then
        leveledIndex ops (max ct1.noiseScaleDeg ct2.noiseScaleDeg - 1) sizeQ
      else if isPOverQBranch P sizeQ then sizeQ - 1
      else 0
    let cv1 := ct1.elems.map (bfvPrepFirst P ops sizeQ l)
    let cv2 := ct2.elems.map (bfvPrepSecond P ops sizeQ l)
    let cvMult := bfvMultElems useKaratsuba cv1 cv2
    Except.ok
      { paramsId := ct1.paramsId
        elems := cvMult.map (bfvPost P ops sizeQ l)
        noiseScaleDeg := max ct1.noiseScaleDeg ct2.noiseScaleDeg + 1
        sizeQ := ct1.sizeQ }

/-- LeveledSHEBFVRNS EvalSquare (without relinearization): same pipeline as
EvalMult specialised to a single operand, with levels computed from the
noise scale degree of the single input and noiseScaleDeg incremented by 1.
danglingCv1 models the undeclared name cv1 read by the HPS/BEHZ Karatsuba
branch of the source. -/
def evalSquare (useKaratsuba : Bool) (P : BFVParams) (ops : BFVOps R)
    (ct : BFVCiphertext R) (danglingCv1 : List R) : BFVCiphertext R :=
  let sizeQ := ct.sizeQ
  let l := if isLeveledTopBranch P sizeQ then
      leveledIndex ops (ct.noiseScaleDeg - 1) sizeQ
    else if isPOverQBranch P sizeQ then sizeQ - 1
    else 0
  let cv := ct.elems.map (bfvPrepFirst P ops sizeQ l)
  let cvPoverQ := ct.elems.map (bfvPrepSecond P ops sizeQ l)
  let cvSquare := bfvSquareElems useKaratsuba P danglingCv1 cv cvPoverQ
  { paramsId := ct.paramsId
    elems := cvSquare.map (bfvPost P ops sizeQ l)
    noiseScaleDeg := ct.noiseScaleDeg + 1
    sizeQ := ct.sizeQ }

end BFVPipeline

section LevelTracker

/-- Final clamping stage of FindLevelsToDrop (bfvrns-leveledshe.cpp).  The
closed-form noise estimate
levels = floor((loge - 2*multiplicativeDepth - 16 - logExtra) / dcrtBits)
is computed in double precision from the crypto parameters, the
multiplicative depth and the keySwitch flag; it is taken here as an
arbitrary integer input noiseEstimate, so every statement below holds for
every outcome of that floating-point computation.  sizeQ is the number of
RNS limbs of the crypto parameters (the totalLimbs of the specification).
The code then clamps: negative values to 0, values above sizeQ - 1 to
sizeQ - 1, and returns the result as an unsigned integer. -/
def findLevelsToDrop (noiseEstimate : Int) (sizeQ : Nat) : Nat :=
  if noiseEstimate < 0 then 0
  else if noiseEstimate > (sizeQ : Int) - 1 then sizeQ - 1
  else noiseEstimate.toNat

end LevelTracker

section BFVRotation

variable {R : Type}

/-- Association-list lookup used to model the evaluation-key map consulted
by rotation (GetEvalAutomorphismKeyMap followed by find). -/
def lookupKey {κ : Type} : List (Nat × κ) → Nat → Option κ
  | [], _ => none
  | p :: ps, k => if p.1 = k then some p.2 else lookupKey ps k

/-- LeveledSHEBFVRNS EvalFastRotation.  For index = 0 the input ciphertext
is cloned and returned immediately, before the automorphism index is
computed and before the evaluation-key map is consulted.  Otherwise the
automorphism index is derived from the rotation index (FindAutomorphismIndex,
abstracted as findAutoIndex), the key is looked up (throwing when absent),
and the key-switching and automorphism body runs (abstracted as rotBody,
a function of the ciphertext, the key and the precomputed digits). -/
def evalFastRotation {κ δ : Type} (findAutoIndex : Nat → Nat → Nat)
    (rotBody : BFVCiphertext R → κ → δ → BFVCiphertext R)
    (keyMap : List (Nat × κ)) (ct : BFVCiphertext R) (index m : Nat) (digits : δ) :
    Except BFVError (BFVCiphertext R) :=
  if index = 0 then Except.ok ct
  else
    let autoIndex := findAutoIndex index m
    match lookupKey keyMap autoIndex with
    | none => Except.error (BFVError.evalKeyNotFound autoIndex)
    | some evalKey => Except.ok (rotBody ct evalKey digits)

end BFVRotation

section CKKSBootstrap

/-- Key switching technique enum (only HYBRID admits CKKS bootstrapping). -/
inductive KeySwitchTechnique where
  | BV
  | HYBRID
deriving DecidableEq, Repr

/-- Secret key distribution enum of the CKKS scheme. -/
inductive SecretKeyDist where
  | GAUSSIAN
  | UNIFORM_TERNARY
  | SPARSE_TERNARY
deriving DecidableEq, Repr

/-- CKKS ciphertext model: an abstract payload together with the number of
RNS limbs of its elements (GetNumOfElements of the first element). -/
structure CKKSCiphertext (α : Type) where
  data : α
  towers : Nat
deriving DecidableEq, Repr

/-- Errors raised by FHECKKSRNS EvalBootstrap. -/
inductive BootError where
  | notHybrid
  | invalidIterations
  | precomMissing
  | degTooLarge
deriving DecidableEq, Repr

/-- Environment of one EvalBootstrap call: the configuration flags checked
at entry and abstract models of the ciphertext-transforming stages.  Every
field of type CKKSCiphertext to CKKSCiphertext stands for the composite
effect of the named code region on the ciphertext value. -/
structure BootEnv (α : Type) where
  /-- GetKeySwitchTechnique of the crypto parameters. -/
  keySwitchTech : KeySwitchTechnique
  /-- Whether m_bootPrecomMap holds an entry for the slot count. -/
  hasPrecom : Bool
  /-- Whether the degree check (deg greater than the correction factor,
  64-bit builds outside composite scaling) fails. -/
  degTooLarge : Bool
  /-- Single-iteration pipeline from the raised modulus through
  CoeffsToSlots, the Chebyshev series, the double-angle iterations,
  SlotsToCoeffs and the final correction-factor multiplication: the
  ciphertext value ctxtDec just before the final tower comparison. -/
  decPipeline : CKKSCiphertext α → CKKSCiphertext α
  /-- Steps 1 and 2 of the iterative mode: clone, MultByIntegerInPlace by
  2^precision and SetLevel (the ciphertext ctScaledUp). -/
  scaleUpExtend : CKKSCiphertext α → CKKSCiphertext α
  /-- ModReduceInternalInPlace by the composite degree. -/
  modReduceInternal : CKKSCiphertext α → CKKSCiphertext α
  /-- Step 4 of the iterative mode: MultByIntegerInPlace by 2^precision. -/
  multByP2 : CKKSCiphertext α → CKKSCiphertext α
  /-- Step 5 of the iterative mode on the no-escape path: DropLastElements
  down to the input tower count and SetLevel (skipped under composite
  scaling: the conditional lives inside this abstract map). -/
  dropToInput : CKKSCiphertext α → CKKSCiphertext α
  /-- EvalSub of two ciphertexts. -/
  evalSub : CKKSCiphertext α → CKKSCiphertext α → CKKSCiphertext α
  /-- Step 10 of the iterative mode: EvalMultInPlace by 1/2^precision. -/
  finalScaleDown : CKKSCiphertext α → CKKSCiphertext α

/-- Single-iteration body of FHECKKSRNS EvalBootstrap, entered after the
configuration checks: missing-precomputation check for the slot count,
degree check, then the bootstrapping pipeline producing ctxtDec; finally,
if the number of towers achieved is not greater than the tower count of
the input, the input ciphertext is cloned and returned (no-progress
escape), otherwise ctxtDec is returned. -/
def evalBootstrapSingle {α : Type} (E : BootEnv α) (ct : CKKSCiphertext α) :
    Except BootError (CKKSCiphertext α) :=
  if ¬ E.hasPrecom then Except.error BootError.precomMissing
  else if E.degTooLarge then Except.error BootError.degTooLarge
  else
    let ctxtDec := E.decPipeline ct
    if ctxtDec.towers ≤ ct.towers then Except.ok ct
    else Except.ok ctxtDec

/-- Recursive inner EvalBootstrap call with numIterations = 1 issued by the
iterative mode (the configuration checks run again for the inner call; the
iteration-count check passes since the count is 1). -/
def evalBootstrapInner1 {α : Type} (E : BootEnv α) (ct : CKKSCiphertext α) :
    Except BootError (CKKSCiphertext α) :=
  if E.keySwitchTech ≠ KeySwitchTechnique.HYBRID then Except.error BootError.notHybrid
  else evalBootstrapSingle E ct

/-- Iterative (numIterations = 2) body of FHECKKSRNS EvalBootstrap:
scale the input up, bootstrap the input once, mod-reduce and scale the
result up, and compare its tower count against the tower count of the
input; when no towers were gained the original ciphertext is cloned and
returned, otherwise the bootstrapping error is computed, bootstrapped once
on its own, subtracted, and the result scaled back down. -/
def evalBootstrapIterative {α : Type} (E : BootEnv α) (ct : CKKSCiphertext α) :
    Except BootError (CKKSCiphertext α) :=
  let initSizeQ := ct.towers
  let ctScaledUp := E.scaleUpExtend ct
  match evalBootstrapInner1 E ct with
  | Except.error e => Except.error e
  | Except.ok ctInit0 =>
    let ctInit := E.multByP2 (E.modReduceInternal ctInit0)
    if ctInit.towers ≤ initSizeQ then Except.ok ct
    else
      let ctErr := E.evalSub (E.dropToInput ctInit) ctScaledUp
      match evalBootstrapInner1 E ctErr with
      | Except.error e => Except.error e
      | Except.ok ctBootErr0 =>
        Except.ok (E.finalScaleDown (E.evalSub ctInit (E.modReduceInternal ctBootErr0)))

/-- FHECKKSRNS EvalBootstrap(ciphertext, numIterations, precision):
checks, in order, the key switching technique and the iteration count
(only 1 and 2 are accepted), then dispatches to the iterative or the
single-iteration body. -/
def evalBootstrap {α : Type} (E : BootEnv α) (ct : CKKSCiphertext α)
    (numIterations : Nat) : Except BootError (CKKSCiphertext α) :=
  if E.keySwitchTech ≠ KeySwitchTechnique.HYBRID then Except.error BootError.notHybrid
  else if numIterations ≠ 1 ∧ numIterations ≠ 2 then Except.error BootError.invalidIterations
  else if 1 < numIterations then evalBootstrapIterative E ct
  else evalBootstrapSingle E ct

end CKKSBootstrap

section CKKSSetup

/-- Value of the local variable logSlots in EvalBootstrapSetup:
logSlots = log2(slots) truncated to an unsigned integer, replaced by 1
when it is 0 (even a single slot needs one level for rescaling). -/
def setupLogSlots (slots : Nat) : Nat :=
  let logSlots := Nat.log2 slots
  if logSlots = 0 then 1 else logSlots

/-- Clamping applied by EvalBootstrapSetup to one level-budget entry:
an entry above logSlots is lowered to logSlots, then an entry below 1 is
raised to 1 (two successive conditionals, in this order). -/
def setupClampBudget (logSlots e : Nat) : Nat :=
  let e1 := if e > logSlots then logSlots else e
  if e1 < 1 then 1 else e1

/-- Modelled from the spec: level-budget entries are clamped into the
interval from 1 to log2(numSlots); an entry greater than log2(numSlots)
is reduced to log2(numSlots) and an entry less than 1 is raised to 1.
This definition follows the words of the claim (with the base-2 logarithm
read as the integer floor logarithm) and is compared against the code
model setupClampBudget. -/
def specClampBudget (numSlots e : Nat) : Nat :=
  let bound := Nat.log2 numSlots
  let e1 := if e > bound then bound else e
  if e1 < 1 then 1 else e1

/-- Result of EvalBootstrapSetup relevant to the level budgets: the slot
count, the clamped budgets, and the two parameter vectors obtained from
GetCollapsedFFTParams (abstracted as gcfp, a function of the slot count,
the clamped budget entry and the baby-step dimension hint). -/
structure SetupResult (β : Type) where
  slots : Nat
  newBudget0 : Nat
  newBudget1 : Nat
  paramsEnc : β
  paramsDec : β

/-- FHECKKSRNS EvalBootstrapSetup, level-budget handling: slots defaults
to M/4 when numSlots is 0, each budget entry is clamped with respect to
logSlots, and the encode and decode parameter vectors are derived from the
clamped budgets via GetCollapsedFFTParams. -/
def evalBootstrapSetup {β : Type} (gcfp : Nat → Nat → Nat → β) (M numSlots : Nat)
    (levelBudget0 levelBudget1 dim0 dim1 : Nat) : SetupResult β :=
  let slots := if numSlots = 0 then M / 4 else numSlots
  let logSlots := setupLogSlots slots
  let nb0 := setupClampBudget logSlots levelBudget0
  let nb1 := setupClampBudget logSlots levelBudget1
  { slots := slots
    newBudget0 := nb0
    newBudget1 := nb1
    paramsEnc := gcfp slots nb0 dim0
    paramsDec := gcfp slots nb1 dim1 }

end CKKSSetup

section CKKSRotationIndices

/-- FHECKKSRNS FindBootstrapRotationIndices: the concatenated index lists
of the linear-transform or FFT-style factorizations (fullIndexList, taken
abstractly since the claim quantifies over all generated precomputations)
are inserted into an ordered set, the identity index 0 and the index M/4
are erased, and the set is returned in ascending order. -/
def findBootstrapRotationIndices (fullIndexList : List Nat) (M : Nat) : List Nat :=
  (((fullIndexList.toFinset).erase 0).erase (M / 4)).sort (· ≤ ·)

/-- Insert-or-assign on an association list, modelling assignment through
operator[] of std::map: an existing entry for the key is overwritten,
otherwise a new entry is appended. -/
def insertAssign {κ : Type} (l : List (Nat × κ)) (k : Nat) (v : κ) : List (Nat × κ) :=
  if k ∈ l.map Prod.fst then
    l.map (fun p => if p.1 = k then (k, v) else p)
  else l ++ [(k, v)]

/-- FHECKKSRNS EvalBootstrapKeyGen: EvalAtIndexKeyGen generates one
evaluation key per entry of FindBootstrapRotationIndices(slots, M), keyed
by the automorphism index of the rotation index (the translation and the
key material are abstracted as autIndexOf and rotKeyFor), and then the
conjugation key is stored at automorphism index M - 1. -/
def evalBootstrapKeyGen {κ : Type} (autIndexOf : Nat → Nat) (rotKeyFor : Nat → κ)
    (conjKey : κ) (fullIndexList : List Nat) (M : Nat) : List (Nat × κ) :=
  let evalKeys := (findBootstrapRotationIndices fullIndexList M).map
    (fun i => (autIndexOf i, rotKeyFor i))
  insertAssign evalKeys (M - 1) conjKey

end CKKSRotationIndices

section CKKSDoubleAngle

/-- Operations applied to the ciphertext by one pass of the double-angle
loop.  addCorrection e stands for EvalAddInPlace with the scalar
-1/(2*pi)^(2^e) computed from the exponent e = j - r. -/
inductive DAOp where
  | square
  | double
  | addCorrection (e : Int)
  | rescale
deriving DecidableEq, Repr

/-- Loop of ApplyDoubleAngleIterations, translated from the C++ for loop
with signed counter j running from 1 while j < r + 1: each pass squares
the ciphertext in place, doubles it by adding it to itself, adds the
correction scalar for exponent j - r, and rescales once. -/
def daLoop (r j : Int) : List DAOp :=
  if j < r + 1 then
    [DAOp.square, DAOp.double, DAOp.addCorrection (j - r), DAOp.rescale]
      ++ daLoop r (j + 1)
  else []
termination_by (r + 1 - j).toNat
decreasing_by
  omega

/-- FHECKKSRNS ApplyDoubleAngleIterations(ciphertext, numIter) as the
sequence of ciphertext operations it performs: r = numIter and the loop
starts at j = 1. -/
def applyDoubleAngleIterations (numIter : Nat) : List DAOp :=
  daLoop (numIter : Int) 1

/-- Iteration count passed to ApplyDoubleAngleIterations by EvalBootstrap
(both the fully packed and the sparsely packed paths): R_UNIFORM for the
uniform ternary secret-key distribution, R_SPARSE for sparse ternary.
The two counts are constants declared in the scheme header (outside this
repository), so they are taken as inputs. -/
def bootstrapDoubleAngleCount (rUniform rSparse : Nat) (dist : SecretKeyDist) : Nat :=
  if dist = SecretKeyDist.UNIFORM_TERNARY then rUniform else rSparse

end CKKSDoubleAngle

section ConcreteInstances

/-- Concrete BFV operations record over the integers in which every RNS
primitive acts as the identity, used to evaluate the theorems below on
explicit inputs. -/
def idBFVOps : BFVOps Int :=
  { expandHPS := id
    expandAt := fun _ => id
    fastExpandPOverQAt := fun _ => id
    fastExpandLeveledAt := fun _ => id
    scaleRoundDropAt := fun _ => id
    expandBsk := id
    postHPS := id
    postPOverQAt := fun _ => id
    expandQlHatAt := fun _ => id
    postBsk := id
    setCoeff := id
    setEval := id
    levelsToDrop := fun _ _ => 0 }

/-- Concrete bootstrapping environment over a unit payload in which every
pipeline stage preserves the ciphertext, used to evaluate the theorems
below on explicit inputs. -/
def idBootEnv : BootEnv Unit :=
  { keySwitchTech := KeySwitchTechnique.HYBRID
    hasPrecom := true
    degTooLarge := false
    decPipeline := id
    scaleUpExtend := id
    modReduceInternal := id
    multByP2 := id
    dropToInput := id
    evalSub := fun a _ => a
    finalScaleDown := id }

end ConcreteInstances

section BootstrapTheorems

variable {α : Type}

theorem evalBootstrapSingle_ne_invalidIterations (E : BootEnv α) (ct : CKKSCiphertext α) :
    evalBootstrapSingle E ct ≠ Except.error BootError.invalidIterations := by
  unfold evalBootstrapSingle
  split
  · simp
  · split
    · simp
    · by_cases hc : (E.decPipeline ct).towers ≤ ct.towers <;> simp [hc]

theorem evalBootstrapInner1_ne_invalidIterations (E : BootEnv α) (ct : CKKSCiphertext α) :
    evalBootstrapInner1 E ct ≠ Except.error BootError.invalidIterations := by
  unfold evalBootstrapInner1
  split
  · simp
  · exact evalBootstrapSingle_ne_invalidIterations E ct

theorem evalBootstrapIterative_ne_invalidIterations (E : BootEnv α) (ct : CKKSCiphertext α) :
    evalBootstrapIterative E ct ≠ Except.error BootError.invalidIterations := by
  unfold evalBootstrapIterative
  cases h : evalBootstrapInner1 E ct with
  | error e =>
    simp only [h]
    intro hc
    have he : e = BootError.invalidIterations := by injection hc
    rw [he] at h
    exact evalBootstrapInner1_ne_invalidIterations E ct h
  | ok ctInit0 =>
    simp only [h]
    split
    · simp
    · cases h2 : evalBootstrapInner1 E
        (E.evalSub (E.dropToInput (E.multByP2 (E.modReduceInternal ctInit0))) (E.scaleUpExtend ct)) with
      | error e =>
        simp only [h2]
        intro hc
        have he : e = BootError.invalidIterations := by injection hc
        rw [he] at h2
        exact evalBootstrapInner1_ne_invalidIterations E _ h2
      | ok c => simp [h2]

theorem evalBootstrapInner1_eq_one (E : BootEnv α) (ct : CKKSCiphertext α) :
    evalBootstrapInner1 E ct = evalBootstrap E ct 1 := by
  unfold evalBootstrap evalBootstrapInner1
  norm_num

/-- C9: EvalBootstrap(ciphertext, numIterations, precision) accepts only
numIterations equal to 1 or 2; under the hybrid key-switching technique
(whose configuration check precedes and reads only the crypto parameters,
not the ciphertext), the call fails with the invalid-iteration-count error
exactly when numIterations is neither 1 nor 2, and for 1 and 2 this check
never fails; the error does not depend on the ciphertext. -/
theorem ckks_evalBootstrap_iteration_count_check (E : BootEnv α) (ct : CKKSCiphertext α)
    (n : Nat) (hks : E.keySwitchTech = KeySwitchTechnique.HYBRID) :
    evalBootstrap E ct n = Except.error BootError.invalidIterations ↔ (n ≠ 1 ∧ n ≠ 2) := by
  unfold evalBootstrap
  rw [if_neg (by simp [hks])]
  constructor
  · intro h
    by_contra hn
    rw [if_neg hn] at h
    rcases Decidable.not_and_iff_or_not.mp hn with h1 | h2
    · have hn1 : n = 1 := Decidable.not_not.mp h1
      subst hn1
      rw [if_neg (by norm_num)] at h
      exact evalBootstrapSingle_ne_invalidIterations E ct h
    · have hn2 : n = 2 := Decidable.not_not.mp h2
      subst hn2
      rw [if_pos (by norm_num)] at h
      exact evalBootstrapIterative_ne_invalidIterations E ct h
  · intro h
    rw [if_pos h]

/-- Witness for C9 at a concrete environment, ciphertext and iteration
count: the invalid-iteration-count error is raised exactly for counts
outside the set containing 1 and 2. -/
theorem ckks_evalBootstrap_iteration_count_check_witness :
    (evalBootstrap idBootEnv ⟨(), 3⟩ 5 = Except.error BootError.invalidIterations ↔
      ((5 : Nat) ≠ 1 ∧ (5 : Nat) ≠ 2)) :=
  ckks_evalBootstrap_iteration_count_check idBootEnv ⟨(), 3⟩ 5 rfl

/-- C3: in both the single-iteration and the iterative mode, whenever the
ciphertext produced by the bootstrapping pipeline carries no more towers
than the input ciphertext, EvalBootstrap returns the input ciphertext
itself (a clone, bit-identical) instead of raising an error.  In the
single-iteration mode the produced ciphertext is ctxtDec = decPipeline ct;
in the iterative mode it is the singly-bootstrapped ciphertext after the
internal mod-reduction and scale-up. -/
theorem ckks_evalBootstrap_noProgress_returns_input (E : BootEnv α) (ct : CKKSCiphertext α)
    (hks : E.keySwitchTech = KeySwitchTechnique.HYBRID) (hpre : E.hasPrecom = true)
    (hdeg : E.degTooLarge = false) :
    ((E.decPipeline ct).towers ≤ ct.towers → evalBootstrap E ct 1 = Except.ok ct) ∧
    (∀ ctInit0, evalBootstrap E ct 1 = Except.ok ctInit0 →
      (E.multByP2 (E.modReduceInternal ctInit0)).towers ≤ ct.towers →
      evalBootstrap E ct 2 = Except.ok ct) := by
  have hsingle : ∀ c : CKKSCiphertext α, evalBootstrap E c 1 = evalBootstrapSingle E c := by
    intro c
    unfold evalBootstrap
    rw [if_neg (by simp [hks]), if_neg (by norm_num), if_neg (by norm_num)]
  constructor
  · intro hle
    rw [hsingle]
    unfold evalBootstrapSingle
    rw [if_neg (by simp [hpre]), if_neg (by simp [hdeg]), if_pos hle]
  · intro ctInit0 hok hle
    unfold evalBootstrap
    rw [if_neg (by simp [hks]), if_neg (by norm_num), if_pos (by norm_num)]
    unfold evalBootstrapIterative
    rw [evalBootstrapInner1_eq_one, hok]
    simp only [hle, if_pos]

/-- Witness for C3 at a concrete environment whose pipeline preserves the
tower count: both modes return the input ciphertext unchanged. -/
theorem ckks_evalBootstrap_noProgress_returns_input_witness :
    evalBootstrap idBootEnv ⟨(), 4⟩ 1 = Except.ok ⟨(), 4⟩ ∧
    evalBootstrap idBootEnv ⟨(), 4⟩ 2 = Except.ok ⟨(), 4⟩ := by
  have h := ckks_evalBootstrap_noProgress_returns_input idBootEnv ⟨(), 4⟩ rfl rfl rfl
  have h1 := h.1 (le_refl _)
  exact ⟨h1, h.2 ⟨(), 4⟩ h1 (le_refl _)⟩

end BootstrapTheorems

section LevelTrackerTheorems

/-- C2: FindLevelsToDrop is a pure function of its inputs (its Lean model
is a total function of the noise estimate, which subsumes the dependence on
multiplicativeDepth, the crypto parameters, dcrtBits and the keySwitch
flag, and of the limb count), and for every outcome of the floating-point
noise estimate the returned drop count lies in the interval from 0 to
totalLimbs - 1. -/
theorem findLevelsToDrop_deterministic_range (noiseEstimate : Int) (sizeQ : Nat)
    (h : 1 ≤ sizeQ) :
    findLevelsToDrop noiseEstimate sizeQ ≤ sizeQ - 1 := by
  unfold findLevelsToDrop
  split
  · omega
  · split
    · omega
    · omega

/-- Witness for C2 at a concrete noise estimate and limb count. -/
theorem findLevelsToDrop_deterministic_range_witness :
    (1 : Nat) ≤ 5 ∧ findLevelsToDrop 12 5 ≤ 5 - 1 :=
  ⟨by norm_num, findLevelsToDrop_deterministic_range 12 5 (by norm_num)⟩

end LevelTrackerTheorems

section RotationTheorems

/-- C10: EvalFastRotation invoked with rotation index 0 returns a clone of
the input ciphertext unchanged, for every ciphertext, every precomputed
digits vector and every evaluation-key map, including the empty one: no
automorphism-index computation, no key lookup and no key switching occurs,
so a rotation by 0 can never fail with a key-not-found error. -/
theorem bfv_evalFastRotation_index_zero_identity {R κ δ : Type}
    (findAutoIndex : Nat → Nat → Nat) (rotBody : BFVCiphertext R → κ → δ → BFVCiphertext R)
    (keyMap : List (Nat × κ)) (ct : BFVCiphertext R) (m : Nat) (digits : δ) :
    evalFastRotation findAutoIndex rotBody keyMap ct 0 m digits = Except.ok ct := rfl

end RotationTheorems

section SetupTheorems

theorem setupClampBudget_eq_spec (slots e : Nat) (_h : 1 ≤ slots) :
    setupClampBudget (setupLogSlots slots) e = specClampBudget slots e := by
  unfold setupClampBudget specClampBudget setupLogSlots
  dsimp only
  by_cases hl : Nat.log2 slots = 0
  · rw [hl]
    split_ifs <;> omega
  · rw [if_neg hl]

theorem specClampBudget_pos (numSlots e : Nat) : 1 ≤ specClampBudget numSlots e := by
  unfold specClampBudget
  dsimp only
  split_ifs <;> omega

theorem specClampBudget_le_log2 (numSlots e : Nat) (h : 2 ≤ numSlots) :
    specClampBudget numSlots e ≤ Nat.log2 numSlots := by
  have hlog : 1 ≤ Nat.log2 numSlots := by
    rw [Nat.le_log2 (by omega)]
    simpa using h
  unfold specClampBudget
  dsimp only
  split_ifs <;> omega

/-- C6: after EvalBootstrapSetup(levelBudget, dim1, numSlots) with a
nonzero slot count, the stored encode and decode level-budget entries
equal the claim clamp (an entry above log2(numSlots) lowered to
log2(numSlots), then an entry below 1 raised to 1), they are at least 1
and, whenever numSlots is at least 2 so that the interval is nonempty,
at most log2(numSlots); and the encode and decode baby-step/giant-step
parameter vectors are derived from exactly these clamped values via
GetCollapsedFFTParams. -/
theorem ckks_evalBootstrapSetup_budget_clamp {β : Type} (gcfp : Nat → Nat → Nat → β)
    (M numSlots levelBudget0 levelBudget1 dim0 dim1 : Nat) (h : 1 ≤ numSlots) :
    (evalBootstrapSetup gcfp M numSlots levelBudget0 levelBudget1 dim0 dim1).newBudget0
        = specClampBudget numSlots levelBudget0 ∧
    (evalBootstrapSetup gcfp M numSlots levelBudget0 levelBudget1 dim0 dim1).newBudget1
        = specClampBudget numSlots levelBudget1 ∧
    (evalBootstrapSetup gcfp M numSlots levelBudget0 levelBudget1 dim0 dim1).paramsEnc
        = gcfp numSlots (specClampBudget numSlots levelBudget0) dim0 ∧
    (evalBootstrapSetup gcfp M numSlots levelBudget0 levelBudget1 dim0 dim1).paramsDec
        = gcfp numSlots (specClampBudget numSlots levelBudget1) dim1 ∧
    1 ≤ specClampBudget numSlots levelBudget0 ∧
    1 ≤ specClampBudget numSlots levelBudget1 ∧
    (2 ≤ numSlots → specClampBudget numSlots levelBudget0 ≤ Nat.log2 numSlots ∧
      specClampBudget numSlots levelBudget1 ≤ Nat.log2 numSlots) := by
  have hs : (if numSlots = 0 then M / 4 else numSlots) = numSlots := by
    rw [if_neg (by omega)]
  unfold evalBootstrapSetup
  simp only [hs]
  refine ⟨setupClampBudget_eq_spec numSlots levelBudget0 h,
    setupClampBudget_eq_spec numSlots levelBudget1 h, ?_, ?_,
    specClampBudget_pos numSlots levelBudget0, specClampBudget_pos numSlots levelBudget1,
    fun h2 => ⟨specClampBudget_le_log2 numSlots levelBudget0 h2,
      specClampBudget_le_log2 numSlots levelBudget1 h2⟩⟩
  · rw [setupClampBudget_eq_spec numSlots levelBudget0 h]
  · rw [setupClampBudget_eq_spec numSlots levelBudget1 h]

/-- Witness for C6 at numSlots = 8, budgets 7 and 0: the encode budget is
lowered to log2(8) = 3 and the decode budget is raised to 1. -/
theorem ckks_evalBootstrapSetup_budget_clamp_witness :
    (evalBootstrapSetup (fun s b d => (s, b, d)) 32 8 7 0 2 3).newBudget0
        = specClampBudget 8 7 ∧
    (evalBootstrapSetup (fun s b d => (s, b, d)) 32 8 7 0 2 3).newBudget1
        = specClampBudget 8 0 ∧
    (evalBootstrapSetup (fun s b d => (s, b, d)) 32 8 7 0 2 3).paramsEnc
        = (8, specClampBudget 8 7, 2) ∧
    (evalBootstrapSetup (fun s b d => (s, b, d)) 32 8 7 0 2 3).paramsDec
        = (8, specClampBudget 8 0, 3) ∧
    1 ≤ specClampBudget 8 7 ∧ 1 ≤ specClampBudget 8 0 ∧
    (2 ≤ 8 → specClampBudget 8 7 ≤ Nat.log2 8 ∧ specClampBudget 8 0 ≤ Nat.log2 8) :=
  ckks_evalBootstrapSetup_budget_clamp (fun s b d => (s, b, d)) 32 8 7 0 2 3 (by norm_num)

end SetupTheorems

section DoubleAngleTheorems

theorem flatMap_addCorrection_congr (n : Nat) (g1 g2 : Nat → Int) (h : ∀ i, g1 i = g2 i) :
    (List.range n).flatMap
      (fun i => [DAOp.square, DAOp.double, DAOp.addCorrection (g1 i), DAOp.rescale]) =
    (List.range n).flatMap
      (fun i => [DAOp.square, DAOp.double, DAOp.addCorrection (g2 i), DAOp.rescale]) := by
  have hg : g1 = g2 := funext h
  rw [hg]

theorem daLoop_eq_flatMap (m : Nat) : ∀ r j : Int, (r + 1 - j).toNat = m →
    daLoop r j = (List.range m).flatMap
      (fun i => [DAOp.square, DAOp.double, DAOp.addCorrection (j + i - r), DAOp.rescale]) := by
  induction m with
  | zero =>
    intro r j hm
    rw [daLoop]
    rw [if_neg (by omega)]
    simp
  | succ m ih =>
    intro r j hm
    rw [daLoop]
    rw [if_pos (by omega)]
    rw [ih r (j + 1) (by omega)]
    rw [List.range_succ_eq_map]
    rw [List.flatMap_cons, List.flatMap_map]
    simp only [Function.comp_def, Nat.cast_zero, add_zero, Nat.cast_succ]
    congr 1
    exact flatMap_addCorrection_congr m (fun i => j + 1 + (i : Int) - r)
      (fun i => j + ((i : Int) + 1) - r) (fun i => by ring)

theorem applyDoubleAngleIterations_eq_flatMap (numIter : Nat) :
    applyDoubleAngleIterations numIter = (List.range numIter).flatMap
      (fun i => [DAOp.square, DAOp.double,
        DAOp.addCorrection ((i : Int) + 1 - numIter), DAOp.rescale]) := by
  unfold applyDoubleAngleIterations
  rw [daLoop_eq_flatMap numIter (numIter : Int) 1 (by omega)]
  exact flatMap_addCorrection_congr numIter (fun i => 1 + (i : Int) - numIter)
    (fun i => (i : Int) + 1 - numIter) (fun i => by ring)

theorem rescale_count_flatMap (n : Nat) (g : Nat → Int) :
    ((List.range n).flatMap
      (fun i => [DAOp.square, DAOp.double, DAOp.addCorrection (g i), DAOp.rescale])).count
        DAOp.rescale = n := by
  induction n with
  | zero => simp
  | succ n ih =>
    rw [List.range_succ, List.flatMap_append, List.count_append, ih]
    simp [List.count_cons]

/-- C8: ApplyDoubleAngleIterations(ct, numIter) performs exactly numIter
refinement passes; pass j (for j = 1..numIter) squares the ciphertext,
doubles it by adding it to itself, adds the correction scalar for the
exponent j - numIter (the scalar -1/(2*pi)^(2^(j-numIter))), and applies
exactly one rescale, so the whole call rescales exactly numIter times; and
EvalBootstrap invokes it with R_UNIFORM passes for the uniform ternary
secret-key distribution and R_SPARSE passes for the sparse ternary one. -/
theorem ckks_applyDoubleAngleIterations_trace (numIter rUniform rSparse : Nat) :
    applyDoubleAngleIterations numIter = (List.range numIter).flatMap
      (fun i => [DAOp.square, DAOp.double,
        DAOp.addCorrection ((i : Int) + 1 - numIter), DAOp.rescale]) ∧
    (applyDoubleAngleIterations numIter).count DAOp.rescale = numIter ∧
    bootstrapDoubleAngleCount rUniform rSparse SecretKeyDist.UNIFORM_TERNARY = rUniform ∧
    bootstrapDoubleAngleCount rUniform rSparse SecretKeyDist.SPARSE_TERNARY = rSparse := by
  refine ⟨applyDoubleAngleIterations_eq_flatMap numIter, ?_, rfl, rfl⟩
  rw [applyDoubleAngleIterations_eq_flatMap numIter]
  exact rescale_count_flatMap numIter _

end DoubleAngleTheorems

section RotationIndicesTheorems

variable {κ : Type}

theorem lookupKey_eq_none_of_not_mem (l : List (Nat × κ)) (k : Nat)
    (h : k ∉ l.map Prod.fst) : lookupKey l k = none := by
  induction l with
  | nil => rfl
  | cons p ps ih =>
    rw [List.map_cons, List.mem_cons] at h
    push_neg at h
    unfold lookupKey
    rw [if_neg (fun hc => h.1 hc.symm)]
    exact ih h.2

theorem lookupKey_append (l1 l2 : List (Nat × κ)) (k : Nat) :
    lookupKey (l1 ++ l2) k =
      match lookupKey l1 k with
      | some v => some v
      | none => lookupKey l2 k := by
  induction l1 with
  | nil => rfl
  | cons p ps ih =>
    by_cases hp : p.1 = k
    · simp [lookupKey, hp]
    · simp [lookupKey, hp, ih]

theorem lookupKey_map_overwrite (l : List (Nat × κ)) (k : Nat) (v : κ) :
    lookupKey (l.map (fun p => if p.1 = k then (k, v) else p)) k
      = (lookupKey l k).map (fun _ => v) := by
  induction l with
  | nil => rfl
  | cons p ps ih =>
    by_cases hp : p.1 = k
    · simp [lookupKey, hp]
    · simp [lookupKey, hp, ih]

theorem lookupKey_isSome_of_mem (l : List (Nat × κ)) (k : Nat)
    (h : k ∈ l.map Prod.fst) : (lookupKey l k).isSome := by
  induction l with
  | nil => simp at h
  | cons p ps ih =>
    rw [List.map_cons, List.mem_cons] at h
    by_cases hp : p.1 = k
    · simp [lookupKey, hp]
    · simp only [lookupKey, hp, if_false, if_neg hp]
      exact ih (h.resolve_left (fun hc => hp hc.symm))

theorem lookupKey_insertAssign_self (l : List (Nat × κ)) (k : Nat) (v : κ) :
    lookupKey (insertAssign l k v) k = some v := by
  unfold insertAssign
  by_cases hm : k ∈ l.map Prod.fst
  · rw [if_pos hm, lookupKey_map_overwrite]
    obtain ⟨w, hw⟩ := Option.isSome_iff_exists.mp (lookupKey_isSome_of_mem l k hm)
    rw [hw]
    rfl
  · rw [if_neg hm, lookupKey_append, lookupKey_eq_none_of_not_mem l k hm]
    simp [lookupKey]

theorem insertAssign_fst_toFinset (l : List (Nat × κ)) (k : Nat) (v : κ) :
    ((insertAssign l k v).map Prod.fst).toFinset = (l.map Prod.fst).toFinset ∪ {k} := by
  unfold insertAssign
  by_cases hm : k ∈ l.map Prod.fst
  · rw [if_pos hm, List.map_map]
    have hmap : l.map (Prod.fst ∘ fun p => if p.1 = k then (k, v) else p) = l.map Prod.fst := by
      apply List.map_congr_left
      intro p _
      by_cases hp : p.1 = k
      · simp [hp]
      · simp [hp]
    rw [hmap]
    rw [Finset.union_eq_left.mpr (Finset.singleton_subset_iff.mpr (List.mem_toFinset.mpr hm))]
  · rw [if_neg hm, List.map_append, List.toFinset_append]
    rfl

/-- C7: the rotation-index list produced by FindBootstrapRotationIndices
contains no duplicates and contains neither the identity index 0 nor the
Nyquist index M/4, for every concatenated precomputation index list; and
EvalBootstrapKeyGen produces evaluation keys whose key set is exactly the
automorphism indices of that index list together with the conjugation key
stored at automorphism index M - 1. -/
theorem ckks_bootstrap_rotation_indices_and_keygen (fullIndexList : List Nat) (M : Nat)
    (autIndexOf : Nat → Nat) (rotKeyFor : Nat → κ) (conjKey : κ) :
    (findBootstrapRotationIndices fullIndexList M).Nodup ∧
    0 ∉ findBootstrapRotationIndices fullIndexList M ∧
    M / 4 ∉ findBootstrapRotationIndices fullIndexList M ∧
    lookupKey (evalBootstrapKeyGen autIndexOf rotKeyFor conjKey fullIndexList M) (M - 1)
      = some conjKey ∧
    ((evalBootstrapKeyGen autIndexOf rotKeyFor conjKey fullIndexList M).map Prod.fst).toFinset
      = ((findBootstrapRotationIndices fullIndexList M).map autIndexOf).toFinset ∪ {M - 1} := by
  refine ⟨Finset.sort_nodup _ _, ?_, ?_, ?_, ?_⟩
  · intro h
    rw [findBootstrapRotationIndices, Finset.mem_sort, Finset.mem_erase, Finset.mem_erase] at h
    exact h.2.1 rfl
  · intro h
    rw [findBootstrapRotationIndices, Finset.mem_sort, Finset.mem_erase] at h
    exact h.1 rfl
  · unfold evalBootstrapKeyGen
    exact lookupKey_insertAssign_self _ _ _
  · unfold evalBootstrapKeyGen
    rw [insertAssign_fst_toFinset, List.map_map]
    rfl

end RotationIndicesTheorems

section MultSizeTheorems

variable {R : Type} [CommRing R]

theorem length_bfvMultCore (cv1 cv2 : List R) :
    (bfvMultCore cv1 cv2).length = cv1.length + cv2.length - 1 := by
  simp [bfvMultCore]

theorem length_bfvMultKaratsuba (cv1 cv2 : List R) :
    (bfvMultKaratsuba cv1 cv2).length = 3 := rfl

theorem length_bfvMultElems (useKaratsuba : Bool) (cv1 cv2 : List R) :
    (bfvMultElems useKaratsuba cv1 cv2).length = cv1.length + cv2.length - 1 := by
  unfold bfvMultElems
  split
  · split
    · rename_i hk
      rw [length_bfvMultKaratsuba]
      have h1 : cv1.length = 2 := by
        have := (Bool.and_eq_true _ _).mp hk
        exact_mod_cast (decide_eq_true_eq).mp this.1
      have h2 : cv2.length = 2 := by
        have := (Bool.and_eq_true _ _).mp hk
        exact_mod_cast (decide_eq_true_eq).mp this.2
      rw [h1, h2]
    · exact length_bfvMultCore cv1 cv2
  · exact length_bfvMultCore cv1 cv2

/-- C4: for operands sharing the same crypto parameters, EvalMult (scheme
A, without relinearization) succeeds and returns a ciphertext with exactly
size1 + size2 - 1 ring elements and noise scale degree
max(deg1, deg2) + 1, under every one of the four multiplication techniques
(the parameter record P is universally quantified) and both with and
without the Karatsuba shortcut. -/
theorem bfv_evalMult_size_and_noiseDeg (useKaratsuba : Bool) (P : BFVParams)
    (ops : BFVOps R) (ct1 ct2 : BFVCiphertext R) (h : ct1.paramsId = ct2.paramsId) :
    ∃ ct3, evalMult useKaratsuba P ops ct1 ct2 = Except.ok ct3 ∧
      ct3.elems.length = ct1.elems.length + ct2.elems.length - 1 ∧
      ct3.noiseScaleDeg = max ct1.noiseScaleDeg ct2.noiseScaleDeg + 1 := by
  unfold evalMult
  rw [if_neg (not_not_intro h)]
  refine ⟨_, rfl, ?_, rfl⟩
  rw [List.length_map, length_bfvMultElems, List.length_map, List.length_map]

/-- Witness for C4 at concrete integer ciphertexts of sizes 2 and 3 under
the HPSPOVERQLEVELED technique with the Karatsuba shortcut enabled. -/
theorem bfv_evalMult_size_and_noiseDeg_witness :
    ∃ ct3, evalMult true ⟨MultTechnique.HPSPOVERQLEVELED, 4⟩ idBFVOps
        ⟨7, [1, 2], 2, 4⟩ ⟨7, [3, 4, 5], 1, 4⟩ = Except.ok ct3 ∧
      ct3.elems.length = ([1, 2] : List Int).length + ([3, 4, 5] : List Int).length - 1 ∧
      ct3.noiseScaleDeg = max 2 1 + 1 :=
  bfv_evalMult_size_and_noiseDeg true ⟨MultTechnique.HPSPOVERQLEVELED, 4⟩ idBFVOps
    ⟨7, [1, 2], 2, 4⟩ ⟨7, [3, 4, 5], 1, 4⟩ rfl

/-- C5: EvalMult (scheme A) raises the parameter-mismatch error exactly
when its two operands carry different crypto-parameters objects; the check
precedes the whole pipeline, no other error is ever raised, and on the
error path no result ciphertext is produced. -/
theorem bfv_evalMult_params_mismatch_iff (useKaratsuba : Bool) (P : BFVParams)
    (ops : BFVOps R) (ct1 ct2 : BFVCiphertext R) :
    ((evalMult useKaratsuba P ops ct1 ct2 = Except.error BFVError.paramsMismatch) ↔
      ct1.paramsId ≠ ct2.paramsId) ∧
    (∀ e, evalMult useKaratsuba P ops ct1 ct2 = Except.error e →
      e = BFVError.paramsMismatch) := by
  constructor
  · constructor
    · intro he
      by_contra hp
      unfold evalMult at he
      rw [if_neg (not_not_intro hp)] at he
      exact Except.noConfusion he
    · intro hp
      unfold evalMult
      rw [if_pos hp]
  · intro e he
    unfold evalMult at he
    by_cases hp : ct1.paramsId ≠ ct2.paramsId
    · rw [if_pos hp] at he
      injection he with h1
      exact h1.symm
    · rw [if_neg hp] at he
      exact Except.noConfusion he

end MultSizeTheorems

section ConvolutionTheorems

variable {R : Type} [CommRing R]

theorem slotVal_updSlot (f : Nat → Option R) (i : Nat) (v : R) (k : Nat) :
    slotVal (updSlot f i v k) = slotVal (f k) + if i = k then v else 0 := by
  unfold updSlot
  by_cases h : k = i
  · subst h
    rw [if_pos rfl, if_pos rfl]
    cases hf : f k with
    | none => simp [slotVal, hf]
    | some w => simp [slotVal, hf]
  · rw [if_neg h, if_neg (fun hc => h hc.symm), add_zero]

theorem slotSum_cons (p : Nat × R) (ps : List (Nat × R)) (k : Nat) :
    slotSum (p :: ps) k = (if p.1 = k then p.2 else 0) + slotSum ps k := by
  simp [slotSum]

theorem applyUpdates_apply (ps : List (Nat × R)) : ∀ (f : Nat → Option R) (k : Nat),
    slotVal (applyUpdates ps f k) = slotVal (f k) + slotSum ps k := by
  induction ps with
  | nil =>
    intro f k
    simp [applyUpdates, slotSum]
  | cons p ps ih =>
    intro f k
    have hstep : applyUpdates (p :: ps) f = applyUpdates ps (updSlot f p.1 p.2) := rfl
    rw [hstep, ih, slotVal_updSlot, slotSum_cons, add_assoc]

theorem slotSum_append (l1 l2 : List (Nat × R)) (k : Nat) :
    slotSum (l1 ++ l2) k = slotSum l1 k + slotSum l2 k := by
  simp [slotSum]

theorem slotSum_flatMap {γ : Type} (l : List γ) (g : γ → List (Nat × R)) (k : Nat) :
    slotSum (l.flatMap g) k = (l.map (fun x => slotSum (g x) k)).sum := by
  induction l with
  | nil => simp [slotSum]
  | cons x xs ih =>
    rw [List.flatMap_cons, slotSum_append, List.map_cons, List.sum_cons, ih]

theorem slotSum_map_pairs {γ : Type} (l : List γ) (g : γ → Nat × R) (k : Nat) :
    slotSum (l.map g) k = (l.map (fun x => if (g x).1 = k then (g x).2 else 0)).sum := by
  simp [slotSum, List.map_map]
  rfl

theorem list_range_map_sum (n : Nat) (f : Nat → R) :
    ((List.range n).map f).sum = ∑ i in Finset.range n, f i := by
  induction n with
  | zero => simp
  | succ n ih =>
    rw [List.range_succ, List.map_append, List.sum_append, ih, Finset.sum_range_succ]
    simp

theorem list_range'_map_sum (i m : Nat) (f : Nat → R) :
    ((List.range' i m).map f).sum = ∑ j in Finset.Ico i (i + m), f j := by
  rw [List.range'_eq_map_range, List.map_map, list_range_map_sum]
  rw [Finset.sum_Ico_eq_sum_range]
  simp

theorem multPairs_slotSum (cv1 cv2 : List R) (k : Nat) :
    slotSum (multPairs cv1 cv2) k =
      ∑ i in Finset.range cv1.length, ∑ j in Finset.range cv2.length,
        (if i + j = k then cv1.getD i 0 * cv2.getD j 0 else 0) := by
  unfold multPairs
  rw [slotSum_flatMap, list_range_map_sum]
  apply Finset.sum_congr rfl
  intro i _
  rw [slotSum_map_pairs, list_range_map_sum]

theorem squarePairsSym_slotSum (cv : List R) (k : Nat) :
    slotSum (squarePairsSym cv) k =
      ∑ i in Finset.range cv.length, ∑ j in Finset.Ico i cv.length,
        (if j = i then (if i + j = k then cv.getD i 0 * cv.getD j 0 else 0)
         else (if i + j = k then cv.getD i 0 * cv.getD j 0 else 0)
           + (if i + j = k then cv.getD i 0 * cv.getD j 0 else 0)) := by
  unfold squarePairsSym
  rw [slotSum_flatMap, list_range_map_sum]
  apply Finset.sum_congr rfl
  intro i hi
  rw [slotSum_flatMap]
  have hbound : i + (cv.length - i) = cv.length := by
    rw [Finset.mem_range] at hi
    omega
  rw [list_range'_map_sum, hbound]
  apply Finset.sum_congr rfl
  intro j _
  by_cases hj : j = i
  · rw [if_pos hj, if_pos hj]
    simp [slotSum]
  · rw [if_neg hj, if_neg hj]
    simp [slotSum]

end ConvolutionTheorems

section SymmetryTheorems

variable {R : Type} [CommRing R]

theorem sym_triangle_sum_gen (n : Nat) (F : Nat → Nat → R) (hsym : ∀ i j, F i j = F j i) :
    (∑ i in Finset.range n, ∑ j in Finset.Ico i n,
      (if j = i then F i j else F i j + F i j))
      = ∑ i in Finset.range n, ∑ j in Finset.range n, F i j := by
  have hdiagSplit : (∑ i in Finset.range n, ∑ j in Finset.Ico i n, F i j)
      = (∑ i in Finset.range n, F i i)
        + (∑ i in Finset.range n, ∑ j in Finset.Ico (i + 1) n, F i j) := by
    rw [← Finset.sum_add_distrib]
    apply Finset.sum_congr rfl
    intro i hi
    rw [Finset.mem_range] at hi
    rw [Finset.sum_eq_sum_Ico_succ_bot hi]
  have hcomm : (∑ i in Finset.range n, ∑ j in Finset.Ico i n, F i j)
      = (∑ i in Finset.range n, F i i)
        + (∑ i in Finset.range n, ∑ j in Finset.range i, F i j) := by
    rw [Finset.range_eq_Ico, Finset.sum_Ico_Ico_comm]
    have hsplit : ∀ j ∈ Finset.Ico 0 n,
        (∑ i in Finset.Ico 0 (j + 1), F i j) = (∑ i in Finset.Ico 0 j, F i j) + F j j :=
      fun j _ => Finset.sum_Ico_succ_top (Nat.zero_le j) _
    rw [Finset.sum_congr rfl hsplit, Finset.sum_add_distrib, add_comm]
    congr 1
    apply Finset.sum_congr rfl
    intro a _
    rw [← Finset.range_eq_Ico]
    apply Finset.sum_congr rfl
    intro b _
    exact hsym b a
  have hkey : (∑ i in Finset.range n, ∑ j in Finset.Ico (i + 1) n, F i j)
      = (∑ i in Finset.range n, ∑ j in Finset.range i, F i j) := by
    have := hdiagSplit.symm.trans hcomm
    exact add_left_cancel this
  have hL : (∑ i in Finset.range n, ∑ j in Finset.Ico i n,
      (if j = i then F i j else F i j + F i j))
      = (∑ i in Finset.range n, ∑ j in Finset.Ico i n, F i j)
        + (∑ i in Finset.range n, ∑ j in Finset.Ico (i + 1) n, F i j) := by
    rw [← Finset.sum_add_distrib]
    apply Finset.sum_congr rfl
    intro i hi
    rw [Finset.mem_range] at hi
    rw [Finset.sum_eq_sum_Ico_succ_bot hi (f := fun j => if j = i then F i j else F i j + F i j)]
    rw [if_pos rfl]
    have hrest : ∀ j ∈ Finset.Ico (i + 1) n,
        (if j = i then F i j else F i j + F i j) = F i j + F i j := by
      intro j hj
      rw [Finset.mem_Ico] at hj
      rw [if_neg (by omega)]
    rw [Finset.sum_congr rfl hrest, Finset.sum_add_distrib]
    rw [Finset.sum_eq_sum_Ico_succ_bot hi (f := fun j => F i j)]
    ring
  have hR : (∑ i in Finset.range n, ∑ j in Finset.range n, F i j)
      = (∑ i in Finset.range n, ∑ j in Finset.range i, F i j)
        + (∑ i in Finset.range n, ∑ j in Finset.Ico i n, F i j) := by
    rw [← Finset.sum_add_distrib]
    apply Finset.sum_congr rfl
    intro i hi
    rw [Finset.mem_range] at hi
    have h1 : (∑ j in Finset.range n, F i j) = ∑ j in Finset.Ico 0 n, F i j := by
      rw [Finset.range_eq_Ico]
    have h2 : (∑ j in Finset.range i, F i j) = ∑ j in Finset.Ico 0 i, F i j := by
      rw [Finset.range_eq_Ico]
    rw [h1, h2, Finset.sum_Ico_consecutive _ (Nat.zero_le i) (Nat.le_of_lt hi)]
  rw [hL, hkey, hR, add_comm]

theorem bfvSquareCoreSym_eq_multCore (cv : List R) :
    bfvSquareCoreSym cv = bfvMultCore cv cv := by
  unfold bfvSquareCoreSym bfvMultCore
  have hn : 2 * cv.length - 1 = cv.length + cv.length - 1 := by omega
  rw [hn]
  apply List.map_congr_left
  intro k _
  rw [applyUpdates_apply, applyUpdates_apply, squarePairsSym_slotSum, multPairs_slotSum]
  congr 1
  exact sym_triangle_sum_gen cv.length
    (fun i j => if i + j = k then cv.getD i 0 * cv.getD j 0 else 0)
    (fun i j => by dsimp only; rw [Nat.add_comm i j, mul_comm])

theorem bfvSquareCoreAsym_eq_multCore (cv cvP : List R) (h : cvP.length = cv.length) :
    bfvSquareCoreAsym cv cvP = bfvMultCore cv cvP := by
  unfold bfvSquareCoreAsym bfvMultCore
  have hn : 2 * cv.length - 1 = cv.length + cvP.length - 1 := by omega
  rw [hn]

end SymmetryTheorems

section SquareEquivalenceTheorems

variable {R : Type}

theorem bfvPrepSecond_eq_first_of_sym (P : BFVParams) (ops : BFVOps R) (sizeQ l : Nat)
    (h : P.multTech = MultTechnique.HPS ∨ P.multTech = MultTechnique.BEHZ) :
    bfvPrepSecond P ops sizeQ l = bfvPrepFirst P ops sizeQ l := by
  rcases h with h | h <;>
    simp [bfvPrepFirst, bfvPrepSecond, isPOverQBranch, isLeveledTopBranch, h]

theorem bfvSquareElems_schoolbook_eq [CommRing R] (P : BFVParams)
    (danglingCv1 cv cvP : List R) (hlen : cvP.length = cv.length)
    (hsym : P.multTech = MultTechnique.HPS ∨ P.multTech = MultTechnique.BEHZ → cvP = cv) :
    bfvSquareElems false P danglingCv1 cv cvP = bfvMultElems false cv cvP := by
  have hL : bfvSquareElems false P danglingCv1 cv cvP
      = if (P.multTech = MultTechnique.HPS || P.multTech = MultTechnique.BEHZ)
        then bfvSquareCoreSym cv else bfvSquareCoreAsym cv cvP := rfl
  have hR : bfvMultElems false cv cvP = bfvMultCore cv cvP := rfl
  rw [hL, hR]
  by_cases hs : (P.multTech = MultTechnique.HPS || P.multTech = MultTechnique.BEHZ) = true
  · rw [if_pos hs]
    have hcv : cvP = cv := hsym (by simpa using hs)
    rw [hcv, bfvSquareCoreSym_eq_multCore]
  · rw [if_neg hs]
    exact bfvSquareCoreAsym_eq_multCore cv cvP hlen

theorem bfvSquareElems_karatsuba_asym_eq [CommRing R] (P : BFVParams)
    (danglingCv1 cv cvP : List R) (hlen : cvP.length = cv.length)
    (hsym : ¬(P.multTech = MultTechnique.HPS ∨ P.multTech = MultTechnique.BEHZ)) :
    bfvSquareElems true P danglingCv1 cv cvP = bfvMultElems true cv cvP := by
  have hsymb : (P.multTech = MultTechnique.HPS || P.multTech = MultTechnique.BEHZ) = false := by
    simpa using hsym
  have hlen2 : cvP.length = 2 ↔ cv.length = 2 := by rw [hlen]
  by_cases h2 : cv.length = 2
  · have hL : bfvSquareElems true P danglingCv1 cv cvP = bfvSquareKaratsubaAsym cv cvP := by
      simp [bfvSquareElems, hsymb, h2]
    have hR : bfvMultElems true cv cvP = bfvMultKaratsuba cv cvP := by
      simp [bfvMultElems, h2, hlen2.mpr h2]
    rw [hL, hR]
    rfl
  · have hL : bfvSquareElems true P danglingCv1 cv cvP = bfvSquareCoreAsym cv cvP := by
      simp [bfvSquareElems, hsymb, h2]
    have hR : bfvMultElems true cv cvP = bfvMultCore cv cvP := by
      simp [bfvMultElems, h2]
    rw [hL, hR]
    exact bfvSquareCoreAsym_eq_multCore cv cvP hlen

/-- EvalSquare agrees with EvalMult applied to the ciphertext twice in the
build without USE_KARATSUBA, under every multiplication technique: the
element vectors and the noise scale degrees coincide exactly; the
squaring merely halves the multiplication work via the symmetric loop. -/
theorem bfv_evalSquare_eq_evalMult_schoolbook [CommRing R] (P : BFVParams) (ops : BFVOps R)
    (ct : BFVCiphertext R) (danglingCv1 : List R) :
    evalMult false P ops ct ct = Except.ok (evalSquare false P ops ct danglingCv1) := by
  unfold evalMult evalSquare
  rw [if_neg (not_not_intro rfl)]
  dsimp only
  simp only [Nat.max_self]
  congr 2
  apply congrArg (fun l => List.map (bfvPost P ops ct.sizeQ _) l)
  refine (bfvSquareElems_schoolbook_eq P danglingCv1 _ _ (by simp) ?_).symm
  intro hsym
  rw [bfvPrepSecond_eq_first_of_sym P ops _ _ hsym]

/-- EvalSquare also agrees with EvalMult applied to the ciphertext twice in
the build with USE_KARATSUBA for the HPSPOVERQ and HPSPOVERQLEVELED
multiplication techniques (whose Karatsuba branch operates on cv and
cvPoverQ): the divergence is confined to the HPS and BEHZ Karatsuba
branch, which reads the undeclared name cv1. -/
theorem bfv_evalSquare_eq_evalMult_karatsuba_asym [CommRing R] (P : BFVParams) (ops : BFVOps R)
    (ct : BFVCiphertext R) (danglingCv1 : List R)
    (htech : ¬(P.multTech = MultTechnique.HPS ∨ P.multTech = MultTechnique.BEHZ)) :
    evalMult true P ops ct ct = Except.ok (evalSquare true P ops ct danglingCv1) := by
  unfold evalMult evalSquare
  rw [if_neg (not_not_intro rfl)]
  dsimp only
  simp only [Nat.max_self]
  congr 2
  apply congrArg (fun l => List.map (bfvPost P ops ct.sizeQ _) l)
  exact (bfvSquareElems_karatsuba_asym_eq P danglingCv1 _ _ (by simp) htech).symm

/-- C1 (code defect): with USE_KARATSUBA and a size-2 ciphertext under the
HPS or BEHZ technique, the EvalSquare cross term is computed from the
undeclared name cv1 instead of the in-scope vector cv: for the element
vector cv = [2, 3] over the integers, any reading of the dangling name
other than cv itself (here the default-constructed [0, 0]) yields an
element vector different from the one produced by EvalMult on the same
operand twice, whereas reading it as cv (the upstream text and the evident
intent) reproduces the EvalMult result exactly. -/
theorem bfv_evalSquare_karatsuba_crossterm_bug :
    bfvSquareKaratsubaSym ([0, 0] : List Int) [2, 3]
        ≠ bfvMultKaratsuba ([2, 3] : List Int) [2, 3] ∧
    bfvSquareKaratsubaSym ([2, 3] : List Int) [2, 3]
        = bfvMultKaratsuba ([2, 3] : List Int) [2, 3] := by
  constructor
  · intro h
    have h2 := congrArg (fun l => l.getD 1 0) h
    simp [bfvSquareKaratsubaSym, bfvMultKaratsuba] at h2
  · simp [bfvSquareKaratsubaSym, bfvMultKaratsuba]

end SquareEquivalenceTheorems

end OpenFHE
